import Mathlib

/-!
Verification of the RTTY decoding scripts (decode_rtty.py, rtty_bitsync.py,
analyze_rtty.py, rtty_measure_baud.py) against their natural-language spec.

The scripts are shallowly embedded over the rationals: every floating-point
quantity of the Python code becomes a `ℚ`, float division becomes exact
division, `np.mean` of a slice becomes sum divided by length, and Python
`int(...)` on the nonnegative quantities used here becomes floor clamped
to `ℕ`.  The Goertzel coefficient `2·cos(2π·round(N·f/sr)/N)` is transcendental,
so the embedding passes the coefficient as an explicit parameter; the only
fact the code guarantees about it is `|coeff| ≤ 2`, which appears as a
hypothesis where it is needed.
-/

namespace RTTY

attribute [local semireducible] Rat.inv Rat.add Rat.mul Rat.sub

/-- Python `int(q)` for the nonnegative rational quantities used by the
scripts: floor, clamped to `ℕ` (Python `int` truncates toward zero, which
agrees with the floor on nonnegative arguments). -/
def pyIntNat (q : ℚ) : ℕ := ⌊q⌋.toNat

/-- Python slice `l[lo:hi]`. -/
def slice (l : List ℚ) (lo hi : ℕ) : List ℚ := (l.drop lo).take (hi - lo)

/-- `np.mean(l[lo:hi])` as exact rational arithmetic (the scripts never take
the mean of an empty slice on the paths verified here; `0/0 = 0` otherwise). -/
def sliceAvg (l : List ℚ) (lo hi : ℕ) : ℚ := (slice l lo hi).sum / (slice l lo hi).length

/-- One step of the Goertzel second-order recursion
`s0 = x + coeff*s1 - s2; s2 = s1; s1 = s0` (state is `(s1, s2)`). -/
def goertzelStep (coeff : ℚ) (s : ℚ × ℚ) (x : ℚ) : ℚ × ℚ :=
  (x + coeff * s.1 - s.2, s.1)

/-- Final recursion state of the Goertzel loop over a block. -/
def goertzelFinal (coeff : ℚ) (chunk : List ℚ) : ℚ × ℚ :=
  chunk.foldl (goertzelStep coeff) (0, 0)

/-- The Goertzel power expression `s1² + s2² − coeff·s1·s2`. -/
def goertzelPowerOf (coeff : ℚ) (s : ℚ × ℚ) : ℚ :=
  s.1 * s.1 + s.2 * s.2 - coeff * s.1 * s.2

/-- `goertzel_power` from decode_rtty.py / rtty_bitsync.py with the
coefficient `2·cos(2πk/N)` passed as a parameter. -/
def goertzelPower (coeff : ℚ) (chunk : List ℚ) : ℚ :=
  goertzelPowerOf coeff (goertzelFinal coeff chunk)

/-- The i-th Goertzel block `samples[i*block_size:(i+1)*block_size]`. -/
def chunkAt (samples : List ℚ) (blockSize i : ℕ) : List ℚ :=
  slice samples (i * blockSize) ((i + 1) * blockSize)

/-- The silence epsilon `1e-10` of the correlation computations. -/
def eps : ℚ := 1 / 10 ^ 10

/-- The normalized power difference with the silence guard
(`corr = (mark_power - space_power) / total if total > 1e-10 else 0.0`). -/
def rawCorr (mp sp : ℚ) : ℚ :=
  if mp + sp > eps then (mp - sp) / (mp + sp) else 0

/-- One block of the correlation loop of `decode_rtty` (decode_rtty.py
lines 75-86): powers at mark and space, normalized difference with the
silence guard, then optional polarity inversion (`if invert: corr = -corr`). -/
def blockCorr (coeffM coeffS : ℚ) (chunk : List ℚ) (invert : Bool) : ℚ :=
  if invert then -(rawCorr (goertzelPower coeffM chunk) (goertzelPower coeffS chunk))
  else rawCorr (goertzelPower coeffM chunk) (goertzelPower coeffS chunk)

/-- The correlation stream computed by `decode_rtty` (decode_rtty.py
lines 72-88): one correlation value per full block. -/
def decodeCorrelations (coeffM coeffS : ℚ) (samples : List ℚ) (blockSize : ℕ)
    (invert : Bool) : List ℚ :=
  (List.range (samples.length / blockSize)).map
    (fun i => blockCorr coeffM coeffS (chunkAt samples blockSize i) invert)

/-- Spec-side description of the correlation value (spec section 4.1):
`(markPower − spacePower) / (markPower + spacePower)`, or 0 if the
denominator is below the epsilon; negated when `invertPolarity` is set. -/
def specCorrValue (markPower spacePower : ℚ) (invertPolarity : Bool) : ℚ :=
  if markPower + spacePower ≤ eps then 0
  else if invertPolarity then -((markPower - spacePower) / (markPower + spacePower))
  else (markPower - spacePower) / (markPower + spacePower)

/-- `CorrelationSample` of the spec data model, as produced by
`compute_correlation_stream` in rtty_bitsync.py. -/
structure CorrelationSample where
  index : ℕ
  value : ℚ
  magnitude : ℚ
deriving DecidableEq, Repr

/-- One block of `compute_correlation_stream` (rtty_bitsync.py lines 45-77):
correlation value and magnitude, both 0 on silence. -/
def mkCorrelationSample (coeffM coeffS : ℚ) (chunk : List ℚ) (i : ℕ) :
    CorrelationSample :=
  if goertzelPower coeffM chunk + goertzelPower coeffS chunk > eps then
    ⟨i, (goertzelPower coeffM chunk - goertzelPower coeffS chunk) /
        (goertzelPower coeffM chunk + goertzelPower coeffS chunk),
      goertzelPower coeffM chunk + goertzelPower coeffS chunk⟩
  else ⟨i, 0, 0⟩

/-- `compute_correlation_stream` (rtty_bitsync.py lines 39-79) at the
CorrelationSample level. -/
def correlationStream (coeffM coeffS : ℚ) (samples : List ℚ) (blockSize : ℕ) :
    List CorrelationSample :=
  (List.range (samples.length / blockSize)).map
    (fun i => mkCorrelationSample coeffM coeffS (chunkAt samples blockSize i) i)

lemma goertzelPower_nonneg {coeff : ℚ} (h : |coeff| ≤ 2) (chunk : List ℚ) :
    0 ≤ goertzelPower coeff chunk := by
  obtain ⟨h1, h2⟩ := abs_le.mp h
  unfold goertzelPower goertzelPowerOf
  set s := goertzelFinal coeff chunk with hs
  nlinarith [mul_nonneg (by linarith : (0:ℚ) ≤ 2 - coeff) (sq_nonneg (s.1 + s.2)),
    mul_nonneg (by linarith : (0:ℚ) ≤ 2 + coeff) (sq_nonneg (s.1 - s.2))]

lemma eps_pos : (0 : ℚ) < eps := by norm_num [eps]

/-- Claim C1: every correlation value emitted by the tone correlator equals
`(markPower − spacePower) / (markPower + spacePower)` computed from the
Goertzel powers of that block, except that it is 0 when the denominator is
at most the epsilon `1e-10`, and it is negated when the polarity is
inverted. -/
theorem correlation_value_spec (coeffM coeffS : ℚ) (samples : List ℚ)
    (blockSize : ℕ) (invert : Bool) (i : ℕ)
    (hi : i < samples.length / blockSize) :
    (decodeCorrelations coeffM coeffS samples blockSize invert).getD i 0 =
      specCorrValue (goertzelPower coeffM (chunkAt samples blockSize i))
        (goertzelPower coeffS (chunkAt samples blockSize i)) invert := by
  have hlen : (decodeCorrelations coeffM coeffS samples blockSize invert).length
      = samples.length / blockSize := by
    simp [decodeCorrelations]
  have hi2 : i < (decodeCorrelations coeffM coeffS samples blockSize invert).length := by
    rw [hlen]
    exact hi
  rw [List.getD_eq_getElem _ _ hi2]
  have hval : (decodeCorrelations coeffM coeffS samples blockSize invert)[i]
      = blockCorr coeffM coeffS (chunkAt samples blockSize i) invert := by
    simp [decodeCorrelations]
  rw [hval]
  unfold blockCorr rawCorr specCorrValue
  rcases le_or_lt (goertzelPower coeffM (chunkAt samples blockSize i) +
      goertzelPower coeffS (chunkAt samples blockSize i)) eps with hle | hgt
  · rw [if_neg (not_lt.mpr hle), if_pos hle]
    cases invert <;> simp
  · rw [if_pos hgt, if_neg (not_le.mpr hgt)]

/-- Witness for C1 at a concrete one-block input. -/
theorem correlation_value_spec_witness :
    0 < [(1 : ℚ)].length / 1 ∧
      (decodeCorrelations 0 0 [(1 : ℚ)] 1 false).getD 0 0 =
        specCorrValue (goertzelPower 0 (chunkAt [(1 : ℚ)] 1 0))
          (goertzelPower 0 (chunkAt [(1 : ℚ)] 1 0)) false :=
  ⟨by decide, correlation_value_spec 0 0 [(1 : ℚ)] 1 false 0 (by decide)⟩

/-- Claim C8: with Goertzel coefficients of magnitude at most 2 (which is
what `2·cos(·)` always yields), the Goertzel power of every real input
block is nonnegative, and every CorrelationSample produced by
`compute_correlation_stream` — including for silent blocks — has a value
in `[-1, 1]` and a nonnegative magnitude. -/
theorem correlation_sample_bounds (coeffM coeffS : ℚ)
    (hM : |coeffM| ≤ 2) (hS : |coeffS| ≤ 2)
    (samples : List ℚ) (blockSize : ℕ) (cs : CorrelationSample)
    (hcs : cs ∈ correlationStream coeffM coeffS samples blockSize) :
    (∀ chunk : List ℚ, 0 ≤ goertzelPower coeffM chunk) ∧
      -1 ≤ cs.value ∧ cs.value ≤ 1 ∧ 0 ≤ cs.magnitude := by
  refine ⟨fun chunk => goertzelPower_nonneg hM chunk, ?_⟩
  simp only [correlationStream, List.mem_map, List.mem_range] at hcs
  obtain ⟨i, _, rfl⟩ := hcs
  unfold mkCorrelationSample
  set mp := goertzelPower coeffM (chunkAt samples blockSize i) with hmp
  set sp := goertzelPower coeffS (chunkAt samples blockSize i) with hsp
  have hmp0 : 0 ≤ mp := goertzelPower_nonneg hM _
  have hsp0 : 0 ≤ sp := goertzelPower_nonneg hS _
  rcases lt_or_le eps (mp + sp) with hgt | hle
  · rw [if_pos hgt]
    have htot : (0 : ℚ) < mp + sp := lt_trans eps_pos hgt
    refine ⟨?_, ?_, by simpa using le_of_lt htot⟩
    · rw [neg_le, ← neg_div]
      rw [div_le_one htot]
      linarith
    · rw [div_le_one htot]
      linarith
  · rw [if_neg (not_lt.mpr hle)]
    norm_num

/-- Witness for C8 at a concrete one-block input. -/
theorem correlation_sample_bounds_witness :
    |(1 : ℚ)| ≤ 2 ∧
      (-1 ≤ (mkCorrelationSample 1 0 [(1 : ℚ)] 0).value ∧
        (mkCorrelationSample 1 0 [(1 : ℚ)] 0).value ≤ 1 ∧
        0 ≤ (mkCorrelationSample 1 0 [(1 : ℚ)] 0).magnitude) :=
  ⟨by decide,
    (correlation_sample_bounds 1 0 (by decide) (by decide) [(1 : ℚ)] 1
      (mkCorrelationSample 1 0 [(1 : ℚ)] 0)
      ((by rfl : correlationStream 1 0 [(1 : ℚ)] 1
          = [mkCorrelationSample 1 0 [(1 : ℚ)] 0]) ▸
        List.mem_singleton_self _)).2⟩

/-! ## Baudot framing (ITA2 tables and the shift/emit logic shared by the
decoders in decode_rtty.py, rtty_bitsync.py, rtty_measure_baud.py). -/

/-- ITA2 letters table of decode_rtty.py lines 10-15 (`none` = Python `None`,
the reserved/unmapped marker; codes 27 and 31 are the shift controls). -/
def LETTERS : List (Option Char) :=
  [none, some 'E', some (Char.ofNat 10), some 'A', some ' ', some 'S', some 'I', some 'U',
   some (Char.ofNat 13), some 'D', some 'R', some 'J', some 'N', some 'F', some 'C', some 'K',
   some 'T', some 'Z', some 'L', some 'W', some 'H', some 'Y', some 'P', some 'Q',
   some 'O', some 'B', some 'G', none, some 'M', some 'X', some 'V', none]

/-- ITA2 figures table of decode_rtty.py lines 16-21. -/
def FIGURES : List (Option Char) :=
  [none, some '3', some (Char.ofNat 10), some '-', some ' ', some (Char.ofNat 39), some '8', some '7',
   some (Char.ofNat 13), some '$', some '4', some (Char.ofNat 7), some ',', some '!', some ':', some '(',
   some '5', some '+', some ')', some '2', some '#', some '6', some '0', some '1',
   some '9', some '?', some '&', none, some '.', some '/', some ';', none]

/-- The FIGS/LTRS shift state (`shift = 'letters'` / `'figures'`). -/
inductive Shift where
  | letters
  | figures
deriving DecidableEq, Repr

/-- `table = LETTERS if shift == 'letters' else FIGURES`. -/
def tableFor : Shift → List (Option Char)
  | Shift.letters => LETTERS
  | Shift.figures => FIGURES

/-- The per-character decode step shared by all decoders (decode_rtty.py
lines 143-152): code 31 selects the letters shift, 27 the figures shift
(emitting nothing), any other code is looked up in the table of the current
shift and emits the mapped character unless the entry is the `none` marker. -/
def applyCode (shift : Shift) (text : List Char) (code : ℕ) : Shift × List Char :=
  if code = 31 then (Shift.letters, text)
  else if code = 27 then (Shift.figures, text)
  else
    match (tableFor shift).get? code with
    | some (some ch) => (shift, text ++ [ch])
    | _ => (shift, text)

/-- A run of consecutive decoded frames: `applyCode` folded over the codes. -/
def runCodes (shift : Shift) (text : List Char) (codes : List ℕ) : Shift × List Char :=
  codes.foldl (fun st c => applyCode st.1 st.2 c) (shift, text)

/-- Claim C3: code 31 sets the shift to Letters and emits nothing, code 27
sets it to Figures and emits nothing, no other code changes the shift, and
hence the shift state persists across every run of frames that contains no
shift code — it is never reset per frame or per line. -/
theorem shift_state_spec (shift : Shift) (text : List Char) (codes : List ℕ) :
    applyCode shift text 31 = (Shift.letters, text)
    ∧ applyCode shift text 27 = (Shift.figures, text)
    ∧ (∀ code : ℕ, code ≠ 31 → code ≠ 27 → (applyCode shift text code).1 = shift)
    ∧ ((∀ c ∈ codes, c ≠ 31 ∧ c ≠ 27) → (runCodes shift text codes).1 = shift) := by
  refine ⟨rfl, rfl, ?_, ?_⟩
  · intro code h31 h27
    unfold applyCode
    rw [if_neg h31, if_neg h27]
    rcases (tableFor shift).get? code with _ | (_ | ch) <;> rfl
  · intro hcodes
    induction codes generalizing shift text with
    | nil => rfl
    | cons c rest ih =>
      have hc := hcodes c (List.mem_cons_self c rest)
      have hstep : (applyCode shift text c).1 = shift := by
        unfold applyCode
        rw [if_neg hc.1, if_neg hc.2]
        rcases (tableFor shift).get? c with _ | (_ | ch) <;> rfl
      have hrest := ih (applyCode shift text c).1 (applyCode shift text c).2
        (fun x hx => hcodes x (List.mem_cons_of_mem c hx))
      calc (List.foldl (fun st c => applyCode st.1 st.2 c)
            (applyCode shift text c) rest).1
          = (applyCode shift text c).1 := hrest
        _ = shift := hstep

/-- Witness for C3: a figures shift survives a run of non-shift codes. -/
theorem shift_state_spec_witness :
    applyCode Shift.figures [] 31 = (Shift.letters, [])
    ∧ (applyCode Shift.figures [] 5).1 = Shift.figures
    ∧ (runCodes Shift.figures [] [0, 1, 2]).1 = Shift.figures :=
  ⟨(shift_state_spec Shift.figures [] [0, 1, 2]).1,
    (shift_state_spec Shift.figures [] [0, 1, 2]).2.2.1 5 (by decide) (by decide),
    (shift_state_spec Shift.figures [] [0, 1, 2]).2.2.2 (by decide)⟩

/-- Claim C4: for a decoded 5-bit code that is not a shift code, the lookup
in the table selected by the current shift always succeeds (no exception);
a `none` entry emits nothing, any other entry appends exactly the mapped
character. -/
theorem table_lookup_spec (shift : Shift) (text : List Char) (code : ℕ)
    (hlt : code < 32) (h31 : code ≠ 31) (h27 : code ≠ 27) :
    ((tableFor shift).get? code).isSome = true
    ∧ ((tableFor shift).get? code = some none →
        applyCode shift text code = (shift, text))
    ∧ (∀ ch : Char, (tableFor shift).get? code = some (some ch) →
        applyCode shift text code = (shift, text ++ [ch])) := by
  have hlen : (tableFor shift).length = 32 := by
    cases shift <;> rfl
  refine ⟨?_, ?_, ?_⟩
  · rcases h : (tableFor shift).get? code with _ | v
    · exfalso
      have hle := List.get?_eq_none.mp h
      rw [hlen] at hle
      omega
    · rfl
  · intro hnone
    unfold applyCode
    rw [if_neg h31, if_neg h27, hnone]
  · intro ch hch
    unfold applyCode
    rw [if_neg h31, if_neg h27, hch]

/-- Witness for C4: code 0 is the reserved marker in the letters table and
emits nothing; code 1 maps to a character and emits exactly it. -/
theorem table_lookup_spec_witness :
    ((tableFor Shift.letters).get? 0).isSome = true
    ∧ applyCode Shift.letters [] 0 = (Shift.letters, [])
    ∧ applyCode Shift.letters [] 1 = (Shift.letters, ['E']) :=
  ⟨(table_lookup_spec Shift.letters [] 0 (by decide) (by decide) (by decide)).1,
    (table_lookup_spec Shift.letters [] 0 (by decide) (by decide) (by decide)).2.1
      (by decide),
    (table_lookup_spec Shift.letters [] 1 (by decide) (by decide) (by decide)).2.2
      'E' (by decide)⟩

/-! ## The fixed-timing scan loop of `decode_rtty` (decode_rtty.py lines
97-156).  One iteration of the `while i < len(correlations)` loop becomes
`stepScan`; the loop itself becomes `decodeAux` driven by explicit fuel
(the Python loop diverges when `int(7.5*blocks_per_bit) = 0`, which the
termination claim C10 excludes by hypothesis). -/

/-- The decoder state of the scan loop: current block index, shift state,
and the text accumulated so far. -/
structure ScanState where
  i : ℕ
  shift : Shift
  text : List Char
deriving DecidableEq, Repr

/-- The start-bit threshold `0.2` of decode_rtty.py. -/
def threshold : ℚ := 1 / 5

/-- One data-bit decision (decode_rtty.py lines 128-133): average the
blocks `[max(0, ci-1), min(len, ci+2))` around the bit center and decide
mark (1) iff the average is positive. -/
def bitDecision (corr : List ℚ) (ci : ℕ) : ℕ :=
  if 0 < sliceAvg corr (ci - 1) (min corr.length (ci + 2)) then 1 else 0

/-- The data-bit sampling loop (decode_rtty.py lines 120-133): bit `n`
(offset starts at `1.5` and grows by one bit period per bit) is sampled at
block `int(start + offset*blocks_per_bit)`; the loop breaks at the first
center that falls past the end of the stream. -/
def sampleBitsAux (corr : List ℚ) (start : ℕ) (bpb : ℚ) : ℚ → ℕ → List ℕ
  | _, 0 => []
  | offset, fuel + 1 =>
    if corr.length ≤ pyIntNat ((start : ℚ) + offset * bpb) then []
    else bitDecision corr (pyIntNat ((start : ℚ) + offset * bpb))
      :: sampleBitsAux corr start bpb (offset + 1) fuel

/-- The five data bits of one frame. -/
def sampleBits (corr : List ℚ) (start : ℕ) (bpb : ℚ) : List ℕ :=
  sampleBitsAux corr start bpb (3 / 2) 5

/-- Baudot code assembly (decode_rtty.py lines 139-141):
`code |= bit_val << bit_n`, least-significant-bit first. -/
def assembleCode (bits : List ℕ) : ℕ :=
  bits.enum.foldl (fun acc p => acc ||| (p.2 <<< p.1)) 0

/-- `np.mean(correlations[lo:hi] < 0)`: the fraction of blocks in the slice
whose correlation is negative. -/
def spaceFrac (corr : List ℚ) (lo hi : ℕ) : ℚ :=
  (((slice corr lo hi).countP (fun x => decide (x < 0)) : ℕ) : ℚ) /
    ((slice corr lo hi).length : ℚ)

/-- One iteration of the scan loop (decode_rtty.py lines 98-155), returning
`none` when the loop exits (loop condition false, or `break` on a truncated
frame).  The false-start re-check `np.mean(start_samples < 0) < 0.5`
requires a nonempty slice: on an empty slice `np.mean` is `nan` and the
comparison is false, so the frame is accepted — hence the explicit
nonemptiness conjunct. -/
def stepScan (corr : List ℚ) (bpb : ℚ) (s : ScanState) : Option ScanState :=
  if h : s.i < corr.length then
    if -threshold ≤ corr.get ⟨s.i, h⟩ then some ⟨s.i + 1, s.shift, s.text⟩
    else if corr.length ≤ pyIntNat ((s.i : ℚ) + bpb) then none
    else if pyIntNat ((s.i : ℚ) + bpb) - s.i ≠ 0 ∧
        spaceFrac corr s.i (pyIntNat ((s.i : ℚ) + bpb)) < 1 / 2 then
      some ⟨s.i + 1, s.shift, s.text⟩
    else if (sampleBits corr s.i bpb).length < 5 then none
    else
      some ⟨pyIntNat ((s.i : ℚ) + (15 / 2) * bpb),
        (applyCode s.shift s.text (assembleCode (sampleBits corr s.i bpb))).1,
        (applyCode s.shift s.text (assembleCode (sampleBits corr s.i bpb))).2⟩
  else none

/-- The scan loop with explicit fuel: returns the accumulated text when the
loop exits or the fuel runs out. -/
def decodeAux (corr : List ℚ) (bpb : ℚ) : ℕ → ScanState → List Char
  | 0, s => s.text
  | fuel + 1, s =>
    match stepScan corr bpb s with
    | none => s.text
    | some s2 => decodeAux corr bpb fuel s2

/-- `decode_rtty` from the correlation stream on: scan from block 0 in the
letters shift with empty output (fuel `length+1` suffices whenever every
iteration advances the index, see the termination theorem). -/
def decode_rtty (corr : List ℚ) (bpb : ℚ) : List Char :=
  decodeAux corr bpb (corr.length + 1) ⟨0, Shift.letters, []⟩

lemma pyIntNat_mono {a b : ℚ} (h : a ≤ b) : pyIntNat a ≤ pyIntNat b :=
  Int.toNat_le_toNat (Int.floor_le_floor h)

lemma bitDecision_eq_zero_or_one (corr : List ℚ) (ci : ℕ) :
    bitDecision corr ci = 0 ∨ bitDecision corr ci = 1 := by
  unfold bitDecision
  split <;> simp

lemma sampleBits_of_centers_lt (corr : List ℚ) (start : ℕ) (bpb : ℚ)
    (hbpb : 0 ≤ bpb)
    (h5 : pyIntNat ((start : ℚ) + (11 / 2) * bpb) < corr.length) :
    sampleBits corr start bpb =
      [bitDecision corr (pyIntNat ((start : ℚ) + (3 / 2) * bpb)),
       bitDecision corr (pyIntNat ((start : ℚ) + (5 / 2) * bpb)),
       bitDecision corr (pyIntNat ((start : ℚ) + (7 / 2) * bpb)),
       bitDecision corr (pyIntNat ((start : ℚ) + (9 / 2) * bpb)),
       bitDecision corr (pyIntNat ((start : ℚ) + (11 / 2) * bpb))] := by
  have hb : ∀ o : ℚ, o ≤ 11 / 2 → pyIntNat ((start : ℚ) + o * bpb) < corr.length := by
    intro o hle
    refine lt_of_le_of_lt (pyIntNat_mono ?_) h5
    exact add_le_add_left (mul_le_mul_of_nonneg_right hle hbpb) _
  unfold sampleBits
  simp only [sampleBitsAux]
  rw [if_neg (not_le.mpr (hb (3 / 2) (by norm_num))),
    if_neg (not_le.mpr (hb (3 / 2 + 1) (by norm_num))),
    if_neg (not_le.mpr (hb (3 / 2 + 1 + 1) (by norm_num))),
    if_neg (not_le.mpr (hb (3 / 2 + 1 + 1 + 1) (by norm_num))),
    if_neg (not_le.mpr (hb (3 / 2 + 1 + 1 + 1 + 1) (by norm_num)))]
  norm_num

lemma sampleBits_short_of_truncated (corr : List ℚ) (start : ℕ) (bpb : ℚ)
    (h : corr.length ≤ pyIntNat ((start : ℚ) + (11 / 2) * bpb)) :
    (sampleBits corr start bpb).length < 5 := by
  have h' : corr.length ≤ pyIntNat ((start : ℚ) + (3 / 2 + 1 + 1 + 1 + 1) * bpb) := by
    have e : (3 / 2 + 1 + 1 + 1 + 1 : ℚ) = 11 / 2 := by norm_num
    rw [e]
    exact h
  unfold sampleBits
  simp only [sampleBitsAux]
  split_ifs <;> simp_all

/-- Claim C2: when the fixed-timing decoder accepts a start bit at block
`start`, the five data bits are sampled at the blocks
`int(start + (1.5 + n)·blocksPerBit)` for n = 0..4, assembled
least-significant-bit first into a 5-bit code, and the scan resumes at
block `int(start + 7.5·blocksPerBit)`. -/
theorem fixed_timing_frame_spec (corr : List ℚ) (bpb : ℚ) (s : ScanState)
    (hbpb : 0 ≤ bpb)
    (h1 : s.i < corr.length)
    (h2 : corr.getD s.i 0 < -threshold)
    (h3 : pyIntNat ((s.i : ℚ) + bpb) < corr.length)
    (h4 : ¬(pyIntNat ((s.i : ℚ) + bpb) - s.i ≠ 0 ∧
        spaceFrac corr s.i (pyIntNat ((s.i : ℚ) + bpb)) < 1 / 2))
    (h5 : pyIntNat ((s.i : ℚ) + (11 / 2) * bpb) < corr.length) :
    sampleBits corr s.i bpb =
      [bitDecision corr (pyIntNat ((s.i : ℚ) + (3 / 2) * bpb)),
       bitDecision corr (pyIntNat ((s.i : ℚ) + (5 / 2) * bpb)),
       bitDecision corr (pyIntNat ((s.i : ℚ) + (7 / 2) * bpb)),
       bitDecision corr (pyIntNat ((s.i : ℚ) + (9 / 2) * bpb)),
       bitDecision corr (pyIntNat ((s.i : ℚ) + (11 / 2) * bpb))]
    ∧ assembleCode (sampleBits corr s.i bpb) =
        (sampleBits corr s.i bpb).getD 0 0
          + 2 * (sampleBits corr s.i bpb).getD 1 0
          + 4 * (sampleBits corr s.i bpb).getD 2 0
          + 8 * (sampleBits corr s.i bpb).getD 3 0
          + 16 * (sampleBits corr s.i bpb).getD 4 0
    ∧ stepScan corr bpb s = some ⟨pyIntNat ((s.i : ℚ) + (15 / 2) * bpb),
        (applyCode s.shift s.text (assembleCode (sampleBits corr s.i bpb))).1,
        (applyCode s.shift s.text (assembleCode (sampleBits corr s.i bpb))).2⟩ := by
  have hbits := sampleBits_of_centers_lt corr s.i bpb hbpb h5
  refine ⟨hbits, ?_, ?_⟩
  · rw [hbits]
    obtain ha | ha := bitDecision_eq_zero_or_one corr (pyIntNat ((s.i : ℚ) + (3 / 2) * bpb)) <;>
      obtain hb | hb := bitDecision_eq_zero_or_one corr (pyIntNat ((s.i : ℚ) + (5 / 2) * bpb)) <;>
      obtain hc | hc := bitDecision_eq_zero_or_one corr (pyIntNat ((s.i : ℚ) + (7 / 2) * bpb)) <;>
      obtain hd | hd := bitDecision_eq_zero_or_one corr (pyIntNat ((s.i : ℚ) + (9 / 2) * bpb)) <;>
      obtain he | he := bitDecision_eq_zero_or_one corr (pyIntNat ((s.i : ℚ) + (11 / 2) * bpb)) <;>
      rw [ha, hb, hc, hd, he] <;> decide
  · have hget : corr.get ⟨s.i, h1⟩ < -threshold := by
      rw [List.get_eq_getElem, ← List.getD_eq_getElem corr 0 h1]
      exact h2
    have hlen5 : ¬ (sampleBits corr s.i bpb).length < 5 := by
      rw [hbits]
      simp
    unfold stepScan
    rw [dif_pos h1, if_neg (not_le.mpr hget), if_neg (not_le.mpr h3), if_neg h4,
      if_neg hlen5]

/-- Witness for C2: a frame accepted at block 0 with one block per bit. -/
theorem fixed_timing_frame_spec_witness :
    stepScan [(-1 : ℚ), 1, 1, 1, 1, 1, 1, 1, 1] 1 ⟨0, Shift.letters, []⟩
      = some ⟨pyIntNat (((0 : ℕ) : ℚ) + (15 / 2) * 1),
          (applyCode Shift.letters []
            (assembleCode (sampleBits [(-1 : ℚ), 1, 1, 1, 1, 1, 1, 1, 1] 0 1))).1,
          (applyCode Shift.letters []
            (assembleCode (sampleBits [(-1 : ℚ), 1, 1, 1, 1, 1, 1, 1, 1] 0 1))).2⟩ :=
  (fixed_timing_frame_spec [(-1 : ℚ), 1, 1, 1, 1, 1, 1, 1, 1] 1 ⟨0, Shift.letters, []⟩
    (by decide) (by decide) (by decide) (by decide) (by decide) (by decide)).2.2

/-- Claim C5: when the correlation stream ends mid-frame the scan loop stops
— `stepScan` yields `none` both when too few blocks remain for the start-bit
check and when a data-bit center falls past the end — and the decoder then
returns exactly the already-accumulated text, with no character emitted for
the truncated frame. -/
theorem truncated_frame_spec (corr : List ℚ) (bpb : ℚ) (fuel : ℕ) (s : ScanState) :
    (stepScan corr bpb s = none → decodeAux corr bpb (fuel + 1) s = s.text)
    ∧ (s.i < corr.length → corr.getD s.i 0 < -threshold →
        corr.length ≤ pyIntNat ((s.i : ℚ) + bpb) → stepScan corr bpb s = none)
    ∧ (0 ≤ bpb → s.i < corr.length → corr.getD s.i 0 < -threshold →
        pyIntNat ((s.i : ℚ) + bpb) < corr.length →
        ¬(pyIntNat ((s.i : ℚ) + bpb) - s.i ≠ 0 ∧
            spaceFrac corr s.i (pyIntNat ((s.i : ℚ) + bpb)) < 1 / 2) →
        corr.length ≤ pyIntNat ((s.i : ℚ) + (11 / 2) * bpb) →
        stepScan corr bpb s = none) := by
  refine ⟨?_, ?_, ?_⟩
  · intro hnone
    simp only [decodeAux, hnone]
  · intro h1 h2 h3
    have hget : corr.get ⟨s.i, h1⟩ < -threshold := by
      rw [List.get_eq_getElem, ← List.getD_eq_getElem corr 0 h1]
      exact h2
    unfold stepScan
    rw [dif_pos h1, if_neg (not_le.mpr hget), if_pos h3]
  · intro _ h1 h2 h3 h4 h5
    have hget : corr.get ⟨s.i, h1⟩ < -threshold := by
      rw [List.get_eq_getElem, ← List.getD_eq_getElem corr 0 h1]
      exact h2
    have hshort := sampleBits_short_of_truncated corr s.i bpb h5
    unfold stepScan
    rw [dif_pos h1, if_neg (not_le.mpr hget), if_neg (not_le.mpr h3), if_neg h4,
      if_pos hshort]

/-- Witness for C5: a stream ending right at a start bit stops cleanly with
the empty output. -/
theorem truncated_frame_spec_witness :
    stepScan [(-1 : ℚ)] 1 ⟨0, Shift.letters, []⟩ = none
    ∧ decodeAux [(-1 : ℚ)] 1 (0 + 1) ⟨0, Shift.letters, []⟩ = [] := by
  have h := truncated_frame_spec [(-1 : ℚ)] 1 0 ⟨0, Shift.letters, []⟩
  exact ⟨h.2.1 (by decide) (by decide) (by decide),
    h.1 (h.2.1 (by decide) (by decide) (by decide))⟩

lemma stepScan_increases (corr : List ℚ) (bpb : ℚ)
    (h : 1 ≤ pyIntNat ((15 / 2) * bpb)) (s s2 : ScanState)
    (hstep : stepScan corr bpb s = some s2) : s.i < s2.i := by
  unfold stepScan at hstep
  by_cases hi : s.i < corr.length
  · rw [dif_pos hi] at hstep
    have hjump : s.i < pyIntNat ((s.i : ℚ) + (15 / 2) * bpb) := by
      have hfl : ⌊(s.i : ℚ) + (15 / 2) * bpb⌋ = ⌊(15 / 2) * bpb⌋ + s.i := by
        rw [add_comm]
        exact Int.floor_add_nat _ _
      unfold pyIntNat at h ⊢
      rw [hfl]
      omega
    split_ifs at hstep <;> injection hstep with hs2 <;> rw [← hs2] <;>
      first
        | exact Nat.lt_succ_self _
        | exact hjump
  · rw [dif_neg hi] at hstep
    exact absurd hstep (by simp)

lemma decodeAux_fuel_stable (corr : List ℚ) (bpb : ℚ)
    (hinc : ∀ s s2 : ScanState, stepScan corr bpb s = some s2 → s.i < s2.i) :
    ∀ (n : ℕ) (s : ScanState) (m : ℕ), corr.length + 1 ≤ s.i + n → n ≤ m →
      decodeAux corr bpb n s = decodeAux corr bpb m s := by
  intro n
  induction n with
  | zero =>
    intro s m hlen _
    have hnone : stepScan corr bpb s = none := by
      unfold stepScan
      rw [dif_neg (by omega)]
    cases m with
    | zero => rfl
    | succ m => simp only [decodeAux, hnone]
  | succ n ih =>
    intro s m hlen hm
    cases m with
    | zero => omega
    | succ m =>
      simp only [decodeAux]
      cases hstep : stepScan corr bpb s with
      | none => rfl
      | some s2 =>
        exact ih s2 m (by have := hinc s s2 hstep; omega) (by omega)

/-- Claim C10: provided `int(7.5 · blocksPerBit) ≥ 1`, every iteration of
the fixed-timing scan loop strictly increases the current block index (or
exits), and therefore the decode loop terminates: fuel `length + 1`
already computes the fixed point (extra fuel never changes the result). -/
theorem decode_loop_terminates (corr : List ℚ) (bpb : ℚ)
    (h : 1 ≤ pyIntNat ((15 / 2) * bpb)) :
    (∀ s s2 : ScanState, stepScan corr bpb s = some s2 → s.i < s2.i)
    ∧ ∀ extra : ℕ, decodeAux corr bpb (corr.length + 1) ⟨0, Shift.letters, []⟩
        = decodeAux corr bpb (corr.length + 1 + extra) ⟨0, Shift.letters, []⟩ :=
  ⟨stepScan_increases corr bpb h,
    fun extra => decodeAux_fuel_stable corr bpb (stepScan_increases corr bpb h)
      (corr.length + 1) ⟨0, Shift.letters, []⟩ (corr.length + 1 + extra)
      (by omega) (by omega)⟩

/-- Witness for C10 at one block per bit. -/
theorem decode_loop_terminates_witness :
    1 ≤ pyIntNat ((15 / 2) * 1)
    ∧ decodeAux [(-1 : ℚ), 1] 1 (([(-1 : ℚ), 1].length) + 1) ⟨0, Shift.letters, []⟩
        = decodeAux [(-1 : ℚ), 1] 1 (([(-1 : ℚ), 1].length) + 1 + 2) ⟨0, Shift.letters, []⟩ :=
  ⟨by decide, (decode_loop_terminates [(-1 : ℚ), 1] 1 (by decide)).2 2⟩

/-! ## The PLL bit-clock recovery of `decode_with_pll` (rtty_bitsync.py
lines 81-132): phase/transition handling and bit-decision emission. -/

/-- The hysteresis threshold `0.15` of the PLL transition detector. -/
def pllThreshold : ℚ := 3 / 20

/-- The phase-correction gain `0.05` of the PLL. -/
def pllGain : ℚ := 1 / 20

/-- Transition detection (rtty_bitsync.py lines 109-110): the correlation
crossed from above the hysteresis threshold to below its negation or vice
versa. -/
def isTransition (prev curr : ℚ) : Bool :=
  decide ((pllThreshold < prev ∧ curr < -pllThreshold) ∨
    (prev < -pllThreshold ∧ pllThreshold < curr))

/-- The phase error of a phase value, wrapped to the nearest multiple
(rtty_bitsync.py lines 114-116: `if phase_error > 0.5: phase_error -= 1.0`). -/
def wrapErr (p : ℚ) : ℚ := if p > 1 / 2 then p - 1 else p

/-- The PLL state carried across correlation samples: the bit phase and the
previous correlation value. -/
structure PLLState where
  bitPhase : ℚ
  prevCorr : ℚ
deriving DecidableEq, Repr

/-- The phase after the transition-triggered correction step
(rtty_bitsync.py lines 109-117): on a transition the wrapped phase error
times the gain is subtracted from the phase. -/
def pllCorrected (st : PLLState) (corr : ℚ) : ℚ :=
  if isTransition st.prevCorr corr then st.bitPhase - wrapErr st.bitPhase * pllGain
  else st.bitPhase

/-- The negative-wrap guard `if bit_phase < 0: bit_phase += 1.0`
(rtty_bitsync.py lines 123-124). -/
def wrapNeg (p : ℚ) : ℚ := if p < 0 then p + 1 else p

/-- Wrapping into `[0,1)` from either side (the composition of the code's
two wrap guards, used to state the phase-advance property). -/
def wrap01 (p : ℚ) : ℚ := if p < 0 then p + 1 else if 1 ≤ p then p - 1 else p

/-- One correlation sample through the PLL loop body (rtty_bitsync.py lines
105-132): transition correction, phase advance by `phase_inc`, negative
wrap, and — when the phase wraps past 1.0 — emission of a bit decision
`(1 if corr > 0 else 0, |corr|)`. -/
def pllStep (phaseInc : ℚ) (st : PLLState) (corr : ℚ) : PLLState × Option (ℕ × ℚ) :=
  if 1 ≤ wrapNeg (pllCorrected st corr + phaseInc) then
    (⟨wrapNeg (pllCorrected st corr + phaseInc) - 1, corr⟩,
      some (if 0 < corr then 1 else 0, |corr|))
  else (⟨wrapNeg (pllCorrected st corr + phaseInc), corr⟩, none)

/-- Claim C6: on every correlation sample the PLL advances the bit phase by
`1/blocksPerBit` (modulo wrapping into `[0,1)`); a detected transition
multiplies the wrapped phase error by `1 − 0.05`, i.e. reduces it by the
fixed gain `0.05`; and a bit decision is emitted exactly when the advanced
phase wraps past 1.0, with value 1 (mark) iff the correlation at that
instant is positive and with confidence equal to its absolute value. -/
theorem pll_step_spec (bpb : ℚ) (st : PLLState) (corr : ℚ) :
    wrapErr (pllCorrected st corr)
        = (if isTransition st.prevCorr corr then (1 - pllGain) * wrapErr st.bitPhase
           else wrapErr st.bitPhase)
    ∧ (pllStep (1 / bpb) st corr).1.bitPhase = wrap01 (pllCorrected st corr + 1 / bpb)
    ∧ (pllStep (1 / bpb) st corr).1.prevCorr = corr
    ∧ (pllStep (1 / bpb) st corr).2
        = (if 1 ≤ pllCorrected st corr + 1 / bpb
           then some ((if 0 < corr then 1 else 0 : ℕ), |corr|) else none) := by
  refine ⟨?_, ?_, ?_, ?_⟩
  · unfold pllCorrected
    by_cases h : isTransition st.prevCorr corr
    · rw [if_pos h, if_pos h]
      unfold wrapErr pllGain
      split_ifs <;> first | ring1 | (exfalso; linarith)
    · rw [if_neg h, if_neg h]
  · unfold pllStep wrapNeg wrap01
    split_ifs <;> first | rfl | linarith
  · unfold pllStep
    split_ifs <;> rfl
  · unfold pllStep wrapNeg
    split_ifs <;> first | rfl | linarith

/-! ## The baud-rate estimator of `analyze_baud_rate` (analyze_rtty.py
lines 90-139), from the correlation stream on: zero crossings,
inter-crossing intervals in seconds (`hop/sr` per step), the `> 5 ms`
interval filter, and the per-candidate scoring/selection loop. -/

/-- Zero crossings of the correlation stream (analyze_rtty.py lines 91-94):
indices `i ≥ 1` with `correlation[i-1] * correlation[i] < 0`. -/
def zeroCrossings (c : List ℚ) : List ℕ :=
  (List.range c.length).filter
    (fun i => decide (1 ≤ i ∧ c.getD (i - 1) 0 * c.getD i 0 < 0))

/-- `np.diff` on the (ascending) crossing indices. -/
def diffs : List ℕ → List ℕ
  | a :: b :: rest => (b - a) :: diffs (b :: rest)
  | _ => []

/-- The fixed candidate set of analyze_rtty.py lines 113-118
(45.45 = 909/20, 50, 75, 100), in the iteration order of the Python dict. -/
def candidateBauds : List ℚ := [909 / 20, 50, 75, 100]

/-- The per-interval distance of analyze_rtty.py lines 131-132:
`np.mod(interval, period)/period` clipped to the distance to the nearest
integer multiple, in units of the bit period. -/
def fracDist (interval period : ℚ) : ℚ :=
  min (interval / period - ⌊interval / period⌋)
    (1 - (interval / period - ⌊interval / period⌋))

/-- The fit score of a candidate baud (analyze_rtty.py line 133):
`np.mean` of the per-interval distances. -/
def meanFracScore (intervals : List ℚ) (baud : ℚ) : ℚ :=
  ((intervals.map (fun iv => fracDist iv (1 / baud))).sum) / (intervals.length : ℚ)

/-- The selection loop of analyze_rtty.py lines 127-137: keep the first
candidate whose score is strictly below the best so far. -/
def selectBestAux (intervals : List ℚ) : List ℚ → Option ℚ → ℚ → Option ℚ
  | [], best, _ => best
  | b :: rest, best, bestScore =>
    if meanFracScore intervals b < bestScore then
      selectBestAux intervals rest (some b) (meanFracScore intervals b)
    else selectBestAux intervals rest best bestScore

/-- The selection over the candidate set.  Python starts from
`best_score = float('inf')`; every achievable mean score lies in `[0, 1/2]`,
so the sentinel `10^9` is equivalent. -/
def analyzeBaudSelect (intervals : List ℚ) : Option ℚ :=
  selectBestAux intervals candidateBauds none (10 ^ 9)

/-- The observed inter-transition intervals in seconds: crossing-index
differences scaled by `hop/sr`, keeping only intervals above 5 ms
(analyze_rtty.py lines 100-104). -/
def observedIntervals (c : List ℚ) (hopOverSr : ℚ) : List ℚ :=
  ((diffs (zeroCrossings c)).map (fun d => (d : ℚ) * hopOverSr)).filter
    (fun iv => decide (iv > 1 / 200))

/-- `analyze_baud_rate` (analyze_rtty.py lines 90-139) from the correlation
stream on: `None` when fewer than two crossings or no intervals survive the
filter, otherwise the selected candidate baud. -/
def analyze_baud_rate (c : List ℚ) (hopOverSr : ℚ) : Option ℚ :=
  if (zeroCrossings c).length < 2 then none
  else if (observedIntervals c hopOverSr).length = 0 then none
  else analyzeBaudSelect (observedIntervals c hopOverSr)

/-- Modelled from the spec: the claim's metric for C7 — the mean of the
squared quantization errors of the intervals against integer multiples of
the candidate's bit period, restricted to intervals of 1 to 10 bit periods
(comparing these mean squares is equivalent to comparing the claim's RMS
values, since the square root is monotone). -/
def rmsSqScore (intervals : List ℚ) (baud : ℚ) : ℚ :=
  ((intervals.filter
      (fun iv => decide (1 ≤ round (iv * baud) ∧ round (iv * baud) ≤ 10))).map
      (fun iv => (iv - (round (iv * baud) : ℚ) / baud) ^ 2)).sum /
    (((intervals.filter
      (fun iv => decide (1 ≤ round (iv * baud) ∧ round (iv * baud) ≤ 10))).length : ℚ))

/-- Claim C9: with fewer than two crossings in the binarized correlation
stream, the baud-rate estimator reports no baud rate at all. -/
theorem too_few_transitions_undetermined (c : List ℚ) (hopOverSr : ℚ)
    (h : (zeroCrossings c).length < 2) :
    analyze_baud_rate c hopOverSr = none := by
  unfold analyze_baud_rate
  rw [if_pos h]

/-- Witness for C9: an empty correlation stream has no crossings. -/
theorem too_few_transitions_undetermined_witness :
    (zeroCrossings []).length < 2 ∧ analyze_baud_rate [] 1 = none :=
  ⟨by decide, too_few_transitions_undetermined [] 1 (by decide)⟩

/-- A concrete correlation stream whose crossings are at indices
1, 27, 47, 67, so that with `hop/sr = 1/1000` the observed intervals are
26 ms, 20 ms, 20 ms. -/
def cExample : List ℚ :=
  [1] ++ List.replicate 26 (-1) ++ List.replicate 20 1 ++ List.replicate 20 (-1) ++ [1]

/-- Counterexample to C7 as stated: on `cExample` the estimator returns
50 baud, but the claim's RMS metric over 1–10-bit intervals is strictly
smaller at the candidate 100 baud, so the selected baud does not minimize
the claimed RMS error. -/
theorem baud_select_rms_counterexample :
    analyze_baud_rate cExample (1 / 1000) = some 50
    ∧ observedIntervals cExample (1 / 1000) = [13 / 500, 1 / 50, 1 / 50]
    ∧ (100 : ℚ) ∈ candidateBauds
    ∧ rmsSqScore (observedIntervals cExample (1 / 1000)) 100
        < rmsSqScore (observedIntervals cExample (1 / 1000)) 50 := by
  refine ⟨by decide, by decide, by decide, by decide⟩

lemma selectBestAux_min (intervals : List ℚ) :
    ∀ (cands : List ℚ) (best : Option ℚ) (sc : ℚ),
      (∀ bb, best = some bb → meanFracScore intervals bb = sc) →
      ∀ b, selectBestAux intervals cands best sc = some b →
        (b ∈ cands ∨ best = some b) ∧ meanFracScore intervals b ≤ sc ∧
        ∀ cand ∈ cands, meanFracScore intervals b ≤ meanFracScore intervals cand := by
  intro cands
  induction cands with
  | nil =>
    intro best sc hbest b hsel
    simp only [selectBestAux] at hsel
    exact ⟨Or.inr hsel, le_of_eq (hbest b hsel), by simp⟩
  | cons x rest ih =>
    intro best sc hbest b hsel
    simp only [selectBestAux] at hsel
    by_cases hx : meanFracScore intervals x < sc
    · rw [if_pos hx] at hsel
      have h2 := ih (some x) (meanFracScore intervals x)
        (fun bb hbb => by injection hbb with hh; rw [← hh]) b hsel
      have hmem : b ∈ x :: rest := by
        rcases h2.1 with hin | hxb
        · exact List.mem_cons_of_mem x hin
        · injection hxb with hh
          rw [hh]
          exact List.mem_cons_self b rest
      refine ⟨Or.inl hmem, le_trans h2.2.1 (le_of_lt hx), ?_⟩
      intro cand hcand
      rcases List.mem_cons.mp hcand with rfl | hcand
      · exact h2.2.1
      · exact h2.2.2 cand hcand
    · rw [if_neg hx] at hsel
      have h2 := ih best sc hbest b hsel
      have hmem : b ∈ x :: rest ∨ best = some b := by
        rcases h2.1 with hin | hxb
        · exact Or.inl (List.mem_cons_of_mem x hin)
        · exact Or.inr hxb
      refine ⟨hmem, h2.2.1, ?_⟩
      intro cand hcand
      rcases List.mem_cons.mp hcand with rfl | hcand
      · exact le_trans h2.2.1 (not_lt.mp hx)
      · exact h2.2.2 cand hcand

/-- Claim C7 amended: the estimator selects, from the fixed candidate set
{45.45, 50, 75, 100}, a baud rate minimizing the MEAN normalized distance
of the observed intervals (those longer than 5 ms) to the nearest integer
multiple of the candidate's bit period, measured in units of the bit
period — not the RMS-over-1–10-bit-periods metric of the claim. -/
theorem baud_select_min_mean_frac (c : List ℚ) (hopOverSr : ℚ) (b : ℚ)
    (h : analyze_baud_rate c hopOverSr = some b) :
    b ∈ candidateBauds
    ∧ ∀ cand ∈ candidateBauds,
        meanFracScore (observedIntervals c hopOverSr) b
          ≤ meanFracScore (observedIntervals c hopOverSr) cand := by
  unfold analyze_baud_rate at h
  by_cases h1 : (zeroCrossings c).length < 2
  · rw [if_pos h1] at h
    cases h
  · rw [if_neg h1] at h
    by_cases h2 : (observedIntervals c hopOverSr).length = 0
    · rw [if_pos h2] at h
      cases h
    · rw [if_neg h2] at h
      have hmin := selectBestAux_min (observedIntervals c hopOverSr) candidateBauds
        none (10 ^ 9) (fun bb hbb => by cases hbb) b h
      refine ⟨?_, hmin.2.2⟩
      rcases hmin.1 with hin | hcon
      · exact hin
      · cases hcon

/-- Witness for the amended C7 on the concrete stream `cExample`. -/
theorem baud_select_min_mean_frac_witness :
    analyze_baud_rate cExample (1 / 1000) = some 50
    ∧ ((50 : ℚ) ∈ candidateBauds
        ∧ ∀ cand ∈ candidateBauds,
          meanFracScore (observedIntervals cExample (1 / 1000)) 50
            ≤ meanFracScore (observedIntervals cExample (1 / 1000)) cand) :=
  ⟨by decide, baud_select_min_mean_frac cExample (1 / 1000) 50 (by decide)⟩

end RTTY
